import Mathlib

/-! Verification development for the Journey Task Board task-collection
engine (src/src/App.tsx): the task data model, the view engine
(filtering, sorting, statistics), the store mutators (create, update,
toggle), the reorder engine driven by drag-drop events, and the
persistence bridge. Each definition embeds the named piece of the
source; theorems check the specified properties against it. -/

namespace JourneyBoard

/-- Time-of-day section of a task (the union type at App.tsx line 21).
`Section` is a reserved word in Lean, so the type is `Sec` and the task
field `sect`. -/
inductive Sec where
  | morning
  | midday
  | afterWork
  deriving DecidableEq

/-- Task record (App.tsx lines 23-32). Optional fields model the
properties that may be `undefined`; `createdAt` is the millisecond
timestamp and `order` the manual ordinal, both nonnegative in every
state the component itself writes. -/
structure Task where
  id : String
  title : String
  sect : Sec
  category : Option String
  done : Bool
  comment : Option String
  createdAt : Nat
  order : Option Nat
  deriving DecidableEq

/-- Whitespace test covering the common characters of the JS regexp
class used by `clampStr` (space, tab, newline, carriage return,
vertical tab, form feed). -/
def isWs (c : Char) : Bool :=
  c == ' ' || c == '\t' || c == '\n' || c == '\r' || c == Char.ofNat 11 || c == Char.ofNat 12

/-- JS `String.prototype.trim` on a character list: strip leading and
trailing whitespace. -/
def trimChars (cs : List Char) : List Char :=
  ((cs.dropWhile isWs).reverse.dropWhile isWs).reverse

/-- One pass of `replace(/\s+/g, " ")` on an already trimmed list: a
whitespace character becomes a space unless it directly follows another
whitespace character, in which case it is dropped. The flag records
whether the previous character was whitespace. -/
def collapseWs : List Char → Bool → List Char
  | [], _ => []
  | c :: cs, prevWs =>
    if isWs c then
      if prevWs then collapseWs cs true else ' ' :: collapseWs cs true
    else c :: collapseWs cs false

/-- Title/category normalization `clampStr` (App.tsx lines 49-51):
`s.trim().replace(/\s+/g, " ")`. -/
def clampStr (s : String) : String :=
  String.mk (collapseWs (trimChars s.data) false)

/-- Comment normalization: plain `trim()` (App.tsx line 338). -/
def strTrim (s : String) : String :=
  String.mk (trimChars s.data)

/-- Percentage helper `pct` (App.tsx lines 44-47):
`total <= 0 ? 0 : Math.round((done / total) * 100)`. `Math.round` of the
nonnegative rational `100 * done / total` is `floor` of it plus one
half, computed exactly in integer arithmetic as
`(200 * done + total) / (2 * total)`. -/
def pct (done total : Nat) : Nat :=
  if total = 0 then 0 else (200 * done + total) / (2 * total)

/-- Effective sort key of the view comparator: `a.order ?? 999999`
(App.tsx lines 282-283). -/
def effOrder (t : Task) : Nat := t.order.getD 999999

/-- View comparator (App.tsx lines 281-286) as the total preorder it
induces: ascending by `order ?? 999999`, ties by `createdAt`
descending. -/
def viewLE (a b : Task) : Prop :=
  effOrder a < effOrder b ∨ (effOrder a = effOrder b ∧ b.createdAt ≤ a.createdAt)

instance : DecidableRel viewLE := fun a b =>
  inferInstanceAs (Decidable (effOrder a < effOrder b ∨ (effOrder a = effOrder b ∧ b.createdAt ≤ a.createdAt)))

instance : IsTotal Task viewLE := by
  constructor
  intro a b
  unfold viewLE
  omega

instance : IsTrans Task viewLE := by
  constructor
  intro a b c hab hbc
  unfold viewLE at *
  omega

/-- View Engine `filteredTasks` (App.tsx lines 277-287): category
filter, incomplete filter, then the JS sort by the view comparator.
The JS sort is stable and the comparator is induced by the total
preorder `viewLE`, so it is stable insertion sort by `viewLE`. -/
def filteredTasks (tasks : List Task) (categoryFilter : String) (onlyIncomplete : Bool) : List Task :=
  List.insertionSort viewLE
    ((tasks.filter (fun t => if categoryFilter = "All" then true else decide (t.category = some categoryFilter))).filter
      (fun t => if onlyIncomplete then !t.done else true))

/-- Per-section statistics (App.tsx lines 289-302) as
`(done, total, pct)`, computed over the filtered list restricted to the
section. -/
def sectionStats (tasks : List Task) (categoryFilter : String) (onlyIncomplete : Bool) (s : Sec) :
    Nat × Nat × Nat :=
  let list := (filteredTasks tasks categoryFilter onlyIncomplete).filter (fun t => decide (t.sect = s))
  ((list.filter (fun t => t.done)).length, list.length,
    pct (list.filter (fun t => t.done)).length list.length)

/-- Global progress (App.tsx lines 304-308) over the whole filtered
list. -/
def globalProgress (tasks : List Task) (categoryFilter : String) (onlyIncomplete : Bool) : Nat :=
  pct ((filteredTasks tasks categoryFilter onlyIncomplete).filter (fun t => t.done)).length
    (filteredTasks tasks categoryFilter onlyIncomplete).length

/-- Error kinds named by the spec (section 7). The mutators below
return `Except StoreErr`: the early return of `submitForm` before any
state change (App.tsx line 335) is the validation failure; no code path
of the source produces `notFoundError`. -/
inductive StoreErr where
  | validationError
  | notFoundError
  deriving DecidableEq

/-- Normalization of the optional text fields, `category || undefined`
and `comment || undefined` (App.tsx lines 348-349 and 364-366): the
empty string becomes absence. -/
def optOfString (s : String) : Option String :=
  if s = "" then none else some s

/-- Next `order` for a create into section `s` (App.tsx lines
355-358): the reduce `max(m, order ?? -1)` over the section's tasks,
started at -1, plus 1. -/
def nextOrderInt (tasks : List Task) (s : Sec) : Int :=
  ((tasks.filter (fun t => decide (t.sect = s))).foldl
    (fun m t => max m (match t.order with | some n => (n : Int) | none => -1)) (-1)) + 1

/-- Create path of `submitForm` (App.tsx lines 333-338 and 354-372):
validate the normalized title, compute the next `order`, and prepend
the new task. `newId` stands for the `uid()` call and `now` for
`Date.now()`. -/
def createE (tasks : List Task) (formTitle : String) (formSection : Sec)
    (formCategory formComment : String) (newId : String) (now : Nat) :
    Except StoreErr (List Task) :=
  let title := clampStr formTitle
  if title = "" then .error .validationError else
    let nextOrder : Int := nextOrderInt tasks formSection
    let newTask : Task :=
      { id := newId, title := title, sect := formSection,
        category := optOfString (clampStr formCategory), done := false,
        comment := optOfString (strTrim formComment), createdAt := now,
        order := some nextOrder.toNat }
    .ok (newTask :: tasks)

/-- Update path of `submitForm` (App.tsx lines 333-353): validate the
normalized title, then map over the collection replacing the editable
fields of every task whose id is `editingId`; an id that matches
nothing completes with the collection unchanged. -/
def updateE (tasks : List Task) (editingId : String) (formTitle : String)
    (formSection : Sec) (formCategory formComment : String) :
    Except StoreErr (List Task) :=
  let title := clampStr formTitle
  if title = "" then .error .validationError else
    .ok (tasks.map (fun t =>
      if t.id = editingId then
        { t with title := title, sect := formSection,
                 category := optOfString (clampStr formCategory),
                 comment := optOfString (strTrim formComment) }
      else t))

/-- State installed by the create path of `submitForm`: on the early
validation return the previous tasks stay in place. -/
def submitCreate (tasks : List Task) (formTitle : String) (formSection : Sec)
    (formCategory formComment : String) (newId : String) (now : Nat) : List Task :=
  match createE tasks formTitle formSection formCategory formComment newId now with
  | .ok s => s
  | .error _ => tasks

/-- State installed by the update path of `submitForm`: on the early
validation return the previous tasks stay in place. -/
def submitUpdate (tasks : List Task) (editingId : String) (formTitle : String)
    (formSection : Sec) (formCategory formComment : String) : List Task :=
  match updateE tasks editingId formTitle formSection formCategory formComment with
  | .ok s => s
  | .error _ => tasks

/-- `toggleDone` (App.tsx lines 377-379). -/
def toggleDone (id : String) (tasks : List Task) : List Task :=
  tasks.map (fun t => if t.id = id then { t with done := !t.done } else t)

/-- Section comparator of `onDragEnd` (App.tsx line 414): ascending by
`order ?? 999999` only; the stable JS sort keeps ties in stored-array
order. -/
def ordLE (a b : Task) : Prop := effOrder a ≤ effOrder b

instance : DecidableRel ordLE := fun a b =>
  inferInstanceAs (Decidable (effOrder a ≤ effOrder b))

instance : IsTotal Task ordLE :=
  ⟨fun a b => Nat.le_total (effOrder a) (effOrder b)⟩

instance : IsTrans Task ordLE :=
  ⟨fun _ _ _ => Nat.le_trans⟩

/-- The dnd-kit `arrayMove(array, from, to)` call at App.tsx line 420:
remove the element at index `i` and reinsert it at index `j` of the
shortened array. -/
def arrayMove {α : Type} (l : List α) (i j : Nat) : List α :=
  match l[i]? with
  | some x => (l.eraseIdx i).insertIdx j x
  | none => l

/-- Index that `orderMap.get(t.id)` yields after the `forEach` at
App.tsx lines 421-422: `Map.set` overwrites, so the last occurrence of
an id wins. -/
def lastIdxOf (id : String) : List Task → Option Nat
  | [] => none
  | t :: ts =>
    match lastIdxOf id ts with
    | some i => some (i + 1)
    | none => if t.id = id then some 0 else none

/-- Reorder engine `onDragEnd` (App.tsx lines 395-429), reduced to the
(active id, over id) pair the drag detector delivers: guard the no-op
cases, sort the section by `ordLE`, move the dragged task to the target
index, write each section task the index of its id in the moved
sequence (`?? 0` is the `orderMap.get` fallback). -/
def reorder (tasks : List Task) (activeId overId : String) : List Task :=
  if activeId = overId then tasks else
  match tasks.find? (fun t => decide (t.id = activeId)),
        tasks.find? (fun t => decide (t.id = overId)) with
  | some activeTask, some overTask =>
    if activeTask.sect ≠ overTask.sect then tasks else
    let sec := activeTask.sect
    let sectionTasks := List.insertionSort ordLE (tasks.filter (fun t => decide (t.sect = sec)))
    let oldIndex := sectionTasks.findIdx (fun t => decide (t.id = activeId))
    let newIndex := sectionTasks.findIdx (fun t => decide (t.id = overId))
    if oldIndex = sectionTasks.length ∨ newIndex = sectionTasks.length then tasks else
    let moved := arrayMove sectionTasks oldIndex newIndex
    tasks.map (fun t =>
      if t.sect = sec then { t with order := some ((lastIdxOf t.id moved).getD 0) } else t)
  | _, _ => tasks

/-- JSON document tree. The platform pair `JSON.stringify` and
`JSON.parse` round-trips a document exactly for the values that occur
here (strings, booleans, integers below 2^53), so the persistence
bridge is modelled as the map between task collections and documents
under the single storage key. -/
inductive Json where
  | null
  | bool (b : Bool)
  | num (n : Int)
  | str (s : String)
  | arr (elems : List Json)
  | obj (fields : List (String × Json))

/-- Serialized name of a section, as it appears in the payload. -/
def Sec.toName : Sec → String
  | .morning => "Morning"
  | .midday => "Midday"
  | .afterWork => "AfterWork"

/-- Inverse reading of a section name. -/
def secOfName (s : String) : Option Sec :=
  if s = "Morning" then some .morning
  else if s = "Midday" then some .midday
  else if s = "AfterWork" then some .afterWork
  else none

/-- Serialization of one task record as `JSON.stringify` produces it:
keys in declaration order, keys holding `undefined` (absent optional
fields) omitted. -/
def encodeTask (t : Task) : Json :=
  .obj ([("id", Json.str t.id), ("title", Json.str t.title), ("section", Json.str t.sect.toName)]
    ++ (match t.category with | some c => [("category", Json.str c)] | none => [])
    ++ [("done", Json.bool t.done)]
    ++ (match t.comment with | some c => [("comment", Json.str c)] | none => [])
    ++ [("createdAt", Json.num (t.createdAt : Int))]
    ++ (match t.order with | some n => [("order", Json.num (n : Int))] | none => []))

/-- Property lookup on a parsed record, as JS member access performs
it. -/
def jsonField (j : Json) (name : String) : Option Json :=
  match j with
  | .obj fields => fields.lookup name
  | _ => none

/-- Load effect (App.tsx lines 248-258): a stored payload that parses
as an array is installed verbatim (`setTasks(parsed)` guarded only by
`Array.isArray`), with no per-record validation; any other payload is
ignored. -/
def loadRaw (j : Json) : Option (List Json) :=
  match j with
  | .arr l => some l
  | _ => none

/-- Reading one installed record through the `Task` field accesses the
component performs afterwards; `none` when the record does not carry
the `Task` shape (which the loader itself never checks, see
`loadRaw`). -/
def decodeTask (j : Json) : Option Task :=
  match jsonField j "id", jsonField j "title", jsonField j "section",
        jsonField j "done", jsonField j "createdAt" with
  | some (.str i), some (.str ti), some (.str se), some (.bool d), some (.num c) =>
    match secOfName se, c.toNat',
          (match jsonField j "category" with
           | none => some none
           | some (.str s) => some (some s)
           | some _ => none),
          (match jsonField j "comment" with
           | none => some none
           | some (.str s) => some (some s)
           | some _ => none),
          (match jsonField j "order" with
           | none => some none
           | some (.num n) => Option.map some n.toNat'
           | some _ => none) with
    | some sec, some cr, some cat, some com, some ord =>
      some { id := i, title := ti, sect := sec, category := cat, done := d,
             comment := com, createdAt := cr, order := ord }
    | _, _, _, _, _ => none
  | _, _, _, _, _ => none

/-- Save effect (App.tsx lines 261-267): the document written under the
single storage key is the array of encoded tasks. -/
def saveBridge (tasks : List Task) : Json :=
  .arr (tasks.map encodeTask)

/-- Typed reading of a loaded payload: install the array verbatim, then
view every record through the Task accessors. -/
def loadTyped (j : Json) : Option (List Task) :=
  match loadRaw j with
  | some l => l.mapM decodeTask
  | none => none

/-- Ordering rule exactly as claim C2 words it for the Reorder Engine:
tasks with a defined `order` strictly before tasks without, defined
orders ascending, ties and missing orders by `createdAt` descending.
Written from the claim, for comparison against the source embedding
`reorder`. -/
def claimLEb (a b : Task) : Bool :=
  match a.order, b.order with
  | some m, some n => decide (m < n) || (decide (m = n) && decide (b.createdAt ≤ a.createdAt))
  | some _, none => true
  | none, some _ => false
  | none, none => decide (b.createdAt ≤ a.createdAt)

/-- Propositional form of `claimLEb`. -/
def claimLE (a b : Task) : Prop := claimLEb a b = true

instance : DecidableRel claimLE := fun a b =>
  inferInstanceAs (Decidable (claimLEb a b = true))

/-- Reorder procedure exactly as claim C2 words it: sort the section by
the claimed effective-order rule, move the dragged task to the target
position, give every section task its zero-based index as `order`.
Written from the claim, for comparison against the source embedding
`reorder`. -/
def reorderClaimC2 (tasks : List Task) (activeId overId : String) : List Task :=
  match tasks.find? (fun t => decide (t.id = activeId)),
        tasks.find? (fun t => decide (t.id = overId)) with
  | some activeTask, some _ =>
    let sec := activeTask.sect
    let sectionTasks := List.insertionSort claimLE (tasks.filter (fun t => decide (t.sect = sec)))
    let oldIndex := sectionTasks.findIdx (fun t => decide (t.id = activeId))
    let newIndex := sectionTasks.findIdx (fun t => decide (t.id = overId))
    let moved := arrayMove sectionTasks oldIndex newIndex
    tasks.map (fun t =>
      if t.sect = sec then { t with order := some (moved.findIdx (fun u => decide (u.id = t.id))) } else t)
  | _, _ => tasks

/-- Section tasks sorted the way `onDragEnd` sorts them (App.tsx lines
412-414). -/
def sectionSorted (tasks : List Task) (s : Sec) : List Task :=
  List.insertionSort ordLE (tasks.filter (fun t => decide (t.sect = s)))

/-- The reordered section sequence of `onDragEnd`: the dragged task
moved from its index to the target index. -/
def movedList (tasks : List Task) (s : Sec) (aId oId : String) : List Task :=
  arrayMove (sectionSorted tasks s)
    ((sectionSorted tasks s).findIdx (fun t => decide (t.id = aId)))
    ((sectionSorted tasks s).findIdx (fun t => decide (t.id = oId)))

/-- Morning task with a defined `order` at the sentinel threshold used
by the comparator fallback. -/
def exA : Task := ⟨"a", "A", .morning, none, false, none, 0, some 1000000⟩

/-- Morning task with no `order`. -/
def exB : Task := ⟨"b", "B", .morning, none, false, none, 0, none⟩

/-- Morning task without `order`, created earlier than `exQ`. -/
def exP : Task := ⟨"a", "A", .morning, none, false, none, 1, none⟩

/-- Morning task without `order`, created later than `exP`. -/
def exQ : Task := ⟨"b", "B", .morning, none, false, none, 2, none⟩

/-- Morning task whose `order` is 1, leaving no task with order 0 in
its section (reachable: create two tasks, delete the first). -/
def exO : Task := ⟨"o", "Old", .morning, none, false, none, 0, some 1⟩

/-- Plain Morning task for no-op and witness scenarios. -/
def exT : Task := ⟨"t1", "T", .morning, none, false, none, 0, some 0⟩

/-- Newest of three Morning tasks without `order`. -/
def tC : Task := ⟨"tc", "C", .morning, none, false, none, 30, none⟩

/-- Middle of three Morning tasks without `order`. -/
def tB : Task := ⟨"tb", "B", .morning, none, false, none, 20, none⟩

/-- Oldest of three Morning tasks without `order`. -/
def tA : Task := ⟨"ta", "A", .morning, none, false, none, 10, none⟩

/-- Midday task for the cross-section no-op scenario. -/
def mdT : Task := ⟨"md", "MD", .midday, none, false, none, 0, some 0⟩

/-- Done Morning task in category Work. -/
def wTask : Task := ⟨"w", "W", .morning, some "Work", true, none, 0, none⟩

/-- Not-done Morning task in category Home. -/
def hTask : Task := ⟨"h", "H", .morning, some "Home", false, none, 1, none⟩

/-- Stored record that is not a valid task: empty title and a section
name outside the three sections. -/
def badRecord : Json :=
  .obj [("id", Json.str "x"), ("title", Json.str ""), ("section", Json.str "Banana"),
        ("done", Json.bool true), ("createdAt", Json.num 0)]

/-- Stored payload holding `badRecord`: parses as an array, so the
loader installs it. -/
def badPayload : Json := .arr [badRecord]

/-- In a collection with distinct ids, `find?` by id returns the member
carrying that id. -/
lemma find?_id_eq (l : List Task) (hnd : (l.map Task.id).Nodup) (a : Task) (ha : a ∈ l)
    (x : String) (hx : a.id = x) :
    l.find? (fun t => decide (t.id = x)) = some a := by
  induction l with
  | nil => cases ha
  | cons h t ih =>
    rcases List.mem_cons.mp ha with rfl | hat
    · exact List.find?_cons_of_pos _ (by simp [hx])
    · have hne : h.id ≠ x := by
        intro hhx
        have : a.id ∈ t.map Task.id := List.mem_map_of_mem Task.id hat
        rw [hx, ← hhx] at this
        exact (List.nodup_cons.mp hnd).1 this
      rw [List.find?_cons_of_neg _ (by simp [hne])]
      exact ih (List.nodup_cons.mp hnd).2 hat

/-- A `lastIdxOf` search for an id that occurs nowhere returns
nothing. -/
lemma lastIdxOf_eq_none (x : String) (l : List Task) (h : ∀ t ∈ l, t.id ≠ x) :
    lastIdxOf x l = none := by
  induction l with
  | nil => rfl
  | cons hd t ih =>
    unfold lastIdxOf
    rw [ih (fun u hu => h u (List.mem_cons_of_mem hd hu))]
    simp [h hd (List.mem_cons_self hd t)]

/-- With distinct ids, the last-occurrence index used by the order map
is the unique occurrence, the `findIdx` of the id. -/
lemma lastIdxOf_eq_findIdx (l : List Task) (hnd : (l.map Task.id).Nodup) (x : String)
    (hx : ∃ t ∈ l, t.id = x) :
    lastIdxOf x l = some (l.findIdx (fun t => decide (t.id = x))) := by
  induction l with
  | nil => rcases hx with ⟨t, ht, _⟩; cases ht
  | cons h t ih =>
    by_cases hh : h.id = x
    · have hnone : lastIdxOf x t = none := by
        apply lastIdxOf_eq_none
        intro u hu hux
        have : u.id ∈ t.map Task.id := List.mem_map_of_mem Task.id hu
        rw [hux, ← hh] at this
        exact (List.nodup_cons.mp hnd).1 this
      unfold lastIdxOf
      rw [hnone, List.findIdx_cons]
      simp [hh]
    · have hxt : ∃ u ∈ t, u.id = x := by
        rcases hx with ⟨u, hu, hux⟩
        rcases List.mem_cons.mp hu with rfl | hut
        · exact absurd hux hh
        · exact ⟨u, hut, hux⟩
      unfold lastIdxOf
      rw [ih (List.nodup_cons.mp hnd).2 hxt, List.findIdx_cons]
      simp [hh]

/-- In a collection with distinct ids, searching a member's own id
finds its own position. -/
lemma findIdx_getElem_id (l : List Task) (hnd : (l.map Task.id).Nodup) (i : Nat)
    (hi : i < l.length) :
    l.findIdx (fun t => decide (t.id = l[i].id)) = i := by
  induction l generalizing i with
  | nil => cases hi
  | cons h t ih =>
    match i with
    | 0 => rw [List.findIdx_cons]; simp
    | j + 1 =>
      have hj : j < t.length := by simpa using hi
      have hmem : (t[j]).id ∈ t.map Task.id := List.mem_map_of_mem Task.id (t.getElem_mem hj)
      have hne : h.id ≠ (t[j]).id := by
        intro he
        rw [← he] at hmem
        exact (List.nodup_cons.mp hnd).1 hmem
      have : (h :: t)[j + 1] = t[j] := rfl
      rw [this, List.findIdx_cons]
      have hidx := ih (List.nodup_cons.mp hnd).2 j hj
      simp [hne, hidx]

/-- Mapping every member of an id-distinct collection to the position
its id is found at enumerates the positions in order. -/
lemma map_findIdx_eq_range (l : List Task) (hnd : (l.map Task.id).Nodup) :
    l.map (fun t => l.findIdx (fun u => decide (u.id = t.id))) = List.range l.length := by
  apply List.ext_getElem
  · simp
  · intro n h1 h2
    rw [List.getElem_map, List.getElem_range]
    exact findIdx_getElem_id l hnd n (by simpa using h1)

/-- Inserting at a position inside the list is a permutation of
prepending. -/
lemma insertIdx_perm {α : Type} (a : α) : ∀ (n : Nat) (l : List α), n ≤ l.length →
    List.Perm (l.insertIdx n a) (a :: l)
  | 0, l, _ => by simp [List.insertIdx_zero]
  | n + 1, [], h => by cases h
  | n + 1, x :: l, h => by
    rw [List.insertIdx_succ_cons]
    exact List.Perm.trans (List.Perm.cons x (insertIdx_perm a n l (by simpa using h)))
      (List.Perm.swap a x l)

/-- A list is a permutation of its element at `i` consed to the removal
at `i`. -/
lemma perm_getElem_cons_eraseIdx {α : Type} : ∀ (l : List α) (i : Nat) (hi : i < l.length),
    List.Perm l (l[i] :: l.eraseIdx i)
  | [], i, hi => by cases hi
  | x :: l, 0, _ => by simp
  | x :: l, i + 1, hi => by
    have hil : i < l.length := by simpa using hi
    have : (x :: l)[i + 1] = l[i] := rfl
    rw [this, List.eraseIdx_cons_succ]
    exact List.Perm.trans (List.Perm.cons x (perm_getElem_cons_eraseIdx l i hil))
      (List.Perm.swap l[i] x (l.eraseIdx i))

/-- Moving an element between two in-range positions permutes the
list. -/
lemma arrayMove_perm {α : Type} (l : List α) (i j : Nat) (hi : i < l.length)
    (hj : j < l.length) :
    List.Perm (arrayMove l i j) l := by
  unfold arrayMove
  rw [List.getElem?_eq_getElem hi]
  have hlen : (l.eraseIdx i).length + 1 = l.length := List.length_eraseIdx_add_one hi
  have hle : j ≤ (l.eraseIdx i).length := by omega
  exact List.Perm.trans (insertIdx_perm l[i] j (l.eraseIdx i) hle)
    (List.Perm.symm (perm_getElem_cons_eraseIdx l i hi))

/-- Effective reorder calls: with distinct ids, both ids present in the
same section and different from each other, `onDragEnd` gives every
task of that section the index of its id in the moved sequence as its
new `order` and leaves every other task alone. -/
lemma reorder_eq_of_effective
    (tasks : List Task) (aId oId : String) (a b : Task)
    (hnd : (tasks.map Task.id).Nodup)
    (ha : a ∈ tasks) (haid : a.id = aId)
    (hb : b ∈ tasks) (hbid : b.id = oId)
    (hne : aId ≠ oId) (hsec : a.sect = b.sect) :
    reorder tasks aId oId =
      tasks.map (fun t =>
        if t.sect = a.sect then
          { t with order := some ((movedList tasks a.sect aId oId).findIdx (fun u => decide (u.id = t.id))) }
        else t) := by
  have hfa : tasks.find? (fun t => decide (t.id = aId)) = some a := find?_id_eq tasks hnd a ha aId haid
  have hfb : tasks.find? (fun t => decide (t.id = oId)) = some b := find?_id_eq tasks hnd b hb oId hbid
  have haf : a ∈ tasks.filter (fun t => decide (t.sect = a.sect)) :=
    List.mem_filter.mpr ⟨ha, by simp⟩
  have hbf : b ∈ tasks.filter (fun t => decide (t.sect = a.sect)) :=
    List.mem_filter.mpr ⟨hb, by simp [hsec]⟩
  have hperm : List.Perm (sectionSorted tasks a.sect) (tasks.filter (fun t => decide (t.sect = a.sect))) :=
    List.perm_insertionSort ordLE _
  have haS : a ∈ sectionSorted tasks a.sect := (hperm.mem_iff).mpr haf
  have hbS : b ∈ sectionSorted tasks a.sect := (hperm.mem_iff).mpr hbf
  have hlt1 : (sectionSorted tasks a.sect).findIdx (fun t => decide (t.id = aId)) <
      (sectionSorted tasks a.sect).length :=
    List.findIdx_lt_length_of_exists ⟨a, haS, by simp [haid]⟩
  have hlt2 : (sectionSorted tasks a.sect).findIdx (fun t => decide (t.id = oId)) <
      (sectionSorted tasks a.sect).length :=
    List.findIdx_lt_length_of_exists ⟨b, hbS, by simp [hbid]⟩
  have hndf : ((tasks.filter (fun t => decide (t.sect = a.sect))).map Task.id).Nodup :=
    hnd.sublist ((List.filter_sublist tasks).map Task.id)
  have hndS : ((sectionSorted tasks a.sect).map Task.id).Nodup :=
    ((hperm.map Task.id).nodup_iff).mpr hndf
  have hpermM : List.Perm (movedList tasks a.sect aId oId) (sectionSorted tasks a.sect) :=
    arrayMove_perm _ _ _ hlt1 hlt2
  have hndM : ((movedList tasks a.sect aId oId).map Task.id).Nodup :=
    ((hpermM.map Task.id).nodup_iff).mpr hndS
  unfold reorder
  rw [if_neg hne, hfa, hfb]
  dsimp only
  rw [if_neg (show ¬a.sect ≠ b.sect from fun h => h hsec)]
  have hguard : ¬((List.insertionSort ordLE (tasks.filter (fun t => decide (t.sect = a.sect)))).findIdx
        (fun t => decide (t.id = aId)) =
        (List.insertionSort ordLE (tasks.filter (fun t => decide (t.sect = a.sect)))).length ∨
      (List.insertionSort ordLE (tasks.filter (fun t => decide (t.sect = a.sect)))).findIdx
        (fun t => decide (t.id = oId)) =
        (List.insertionSort ordLE (tasks.filter (fun t => decide (t.sect = a.sect)))).length) := by
    push_neg
    exact ⟨Nat.ne_of_lt hlt1, Nat.ne_of_lt hlt2⟩
  rw [if_neg hguard]
  show tasks.map (fun t =>
      if t.sect = a.sect then
        { t with order := some ((lastIdxOf t.id (movedList tasks a.sect aId oId)).getD 0) }
      else t) = _
  apply List.map_congr_left
  intro t ht
  by_cases hts : t.sect = a.sect
  · rw [if_pos hts, if_pos hts]
    have htf : t ∈ tasks.filter (fun u => decide (u.sect = a.sect)) :=
      List.mem_filter.mpr ⟨ht, by simp [hts]⟩
    have htM : t ∈ movedList tasks a.sect aId oId :=
      (hpermM.mem_iff).mpr ((hperm.mem_iff).mpr htf)
    rw [lastIdxOf_eq_findIdx (movedList tasks a.sect aId oId) hndM t.id ⟨t, htM, rfl⟩]
    rfl
  · rw [if_neg hts, if_neg hts]

/-- Order assigned by an effective reorder call, restricted to the
section and projected to the `order` field: exactly the positions
`0..k-1` of the section, as a multiset. -/
lemma reorder_orders_range
    (tasks : List Task) (aId oId : String) (a b : Task)
    (hnd : (tasks.map Task.id).Nodup)
    (ha : a ∈ tasks) (haid : a.id = aId)
    (hb : b ∈ tasks) (hbid : b.id = oId)
    (hne : aId ≠ oId) (hsec : a.sect = b.sect) :
    (((reorder tasks aId oId).filter (fun t => decide (t.sect = a.sect))).map Task.order).Perm
      ((List.range ((tasks.filter (fun t => decide (t.sect = a.sect))).length)).map some) := by
  rw [reorder_eq_of_effective tasks aId oId a b hnd ha haid hb hbid hne hsec]
  have hfilter :
      ((tasks.map (fun t =>
        if t.sect = a.sect then
          { t with order := some ((movedList tasks a.sect aId oId).findIdx (fun u => decide (u.id = t.id))) }
        else t)).filter (fun t => decide (t.sect = a.sect))) =
      ((tasks.filter (fun t => decide (t.sect = a.sect))).map (fun t =>
        if t.sect = a.sect then
          { t with order := some ((movedList tasks a.sect aId oId).findIdx (fun u => decide (u.id = t.id))) }
        else t)) := by
    rw [List.filter_map]
    congr 1
    apply List.filter_congr
    intro t _
    by_cases hts : t.sect = a.sect <;> simp [Function.comp, hts]
  rw [hfilter, List.map_map]
  have hmapord :
      ((tasks.filter (fun t => decide (t.sect = a.sect))).map (Task.order ∘ (fun t =>
        if t.sect = a.sect then
          { t with order := some ((movedList tasks a.sect aId oId).findIdx (fun u => decide (u.id = t.id))) }
        else t))) =
      ((tasks.filter (fun t => decide (t.sect = a.sect))).map (fun t =>
        some ((movedList tasks a.sect aId oId).findIdx (fun u => decide (u.id = t.id))))) := by
    apply List.map_congr_left
    intro t htf
    have hts : t.sect = a.sect := of_decide_eq_true (List.mem_filter.mp htf).2
    simp [Function.comp, hts]
  rw [hmapord]
  have hperm : List.Perm (sectionSorted tasks a.sect) (tasks.filter (fun t => decide (t.sect = a.sect))) :=
    List.perm_insertionSort ordLE _
  have haS : a ∈ sectionSorted tasks a.sect :=
    (hperm.mem_iff).mpr (List.mem_filter.mpr ⟨ha, by simp⟩)
  have hbS : b ∈ sectionSorted tasks a.sect :=
    (hperm.mem_iff).mpr (List.mem_filter.mpr ⟨hb, by simp [hsec]⟩)
  have hlt1 : (sectionSorted tasks a.sect).findIdx (fun t => decide (t.id = aId)) <
      (sectionSorted tasks a.sect).length :=
    List.findIdx_lt_length_of_exists ⟨a, haS, by simp [haid]⟩
  have hlt2 : (sectionSorted tasks a.sect).findIdx (fun t => decide (t.id = oId)) <
      (sectionSorted tasks a.sect).length :=
    List.findIdx_lt_length_of_exists ⟨b, hbS, by simp [hbid]⟩
  have hpermM : List.Perm (movedList tasks a.sect aId oId) (sectionSorted tasks a.sect) :=
    arrayMove_perm _ _ _ hlt1 hlt2
  have hndM : ((movedList tasks a.sect aId oId).map Task.id).Nodup :=
    ((hpermM.map Task.id).nodup_iff).mpr (((hperm.map Task.id).nodup_iff).mpr
      (hnd.sublist ((List.filter_sublist tasks).map Task.id)))
  have hchain : List.Perm (tasks.filter (fun t => decide (t.sect = a.sect)))
      (movedList tasks a.sect aId oId) :=
    (hpermM.trans hperm).symm
  have hstep := hchain.map (fun t =>
    some ((movedList tasks a.sect aId oId).findIdx (fun u => decide (u.id = t.id))))
  have hfin : (movedList tasks a.sect aId oId).map (fun t =>
      some ((movedList tasks a.sect aId oId).findIdx (fun u => decide (u.id = t.id)))) =
      (List.range ((tasks.filter (fun t => decide (t.sect = a.sect))).length)).map some := by
    have hcomp : (movedList tasks a.sect aId oId).map (fun t =>
        some ((movedList tasks a.sect aId oId).findIdx (fun u => decide (u.id = t.id)))) =
        ((movedList tasks a.sect aId oId).map (fun t =>
          (movedList tasks a.sect aId oId).findIdx (fun u => decide (u.id = t.id)))).map some := by
      rw [List.map_map]
      rfl
    rw [hcomp, map_findIdx_eq_range _ hndM, (hpermM.trans hperm).length_eq]
  rw [← hfin]
  exact hstep

/-- The reduce at App.tsx lines 355-358 seen on the `order` keys is
right commutative, hence permutation invariant. -/
lemma maxFold_rightComm :
    RightCommutative (fun (b : Int) (a : Option Nat) =>
      max b (match a with | some n => (n : Int) | none => -1)) :=
  ⟨fun b _ _ => sup_right_comm b _ _⟩

/-- Folding that maximum over the orders 0..m-1 yields m-1. -/
lemma foldl_max_range (m : Nat) :
    List.foldl (fun (b : Int) (a : Option Nat) =>
      max b (match a with | some n => (n : Int) | none => -1)) (-1)
      ((List.range m).map some) = (m : Int) - 1 := by
  induction m with
  | zero => simp
  | succ k ih =>
    rw [List.range_succ, List.map_append, List.foldl_append, ih]
    dsimp only [List.map_cons, List.map_nil, List.foldl_cons, List.foldl_nil]
    rw [max_eq_right (by omega : (k : Int) - 1 ≤ (k : Int))]
    push_cast
    ring

/-- Create path with a valid title: the exact new state (App.tsx lines
354-372). -/
lemma createE_ok (tasks : List Task) (title : String) (s : Sec) (cat com nid : String)
    (now : Nat) (ht : clampStr title ≠ "") :
    createE tasks title s cat com nid now = .ok
      ({ id := nid, title := clampStr title, sect := s,
         category := optOfString (clampStr cat), done := false,
         comment := optOfString (strTrim com), createdAt := now,
         order := some (nextOrderInt tasks s).toNat } :: tasks) := by
  unfold createE
  rw [if_neg ht]

/-- A successful create into a section whose orders are exactly 0..m-1
extends them to exactly 0..m. -/
lemma create_orders_range (tasks : List Task) (title : String) (s : Sec)
    (cat com nid : String) (now : Nat) (m : Nat)
    (ht : clampStr title ≠ "")
    (hperm : ((tasks.filter (fun t => decide (t.sect = s))).map Task.order).Perm
      ((List.range m).map some)) :
    (((submitCreate tasks title s cat com nid now).filter (fun t => decide (t.sect = s))).map Task.order).Perm
      ((List.range (m + 1)).map some) := by
  unfold submitCreate
  rw [createE_ok tasks title s cat com nid now ht]
  have hfold : nextOrderInt tasks s = (m : Int) := by
    unfold nextOrderInt
    have h1 : ((tasks.filter (fun t => decide (t.sect = s))).map Task.order).foldl
        (fun (b : Int) (a : Option Nat) => max b (match a with | some n => (n : Int) | none => -1)) (-1) =
        (tasks.filter (fun t => decide (t.sect = s))).foldl
        (fun m t => max m (match t.order with | some n => (n : Int) | none => -1)) (-1) :=
      List.foldl_map Task.order _ _ _
    rw [← h1, @List.Perm.foldl_eq _ _ _ _ _ maxFold_rightComm hperm (-1), foldl_max_range m]
    omega
  rw [List.filter_cons_of_pos (by simp), List.map_cons, hfold]
  have htn : ((m : Int)).toNat = m := by omega
  rw [htn, List.range_succ, List.map_append]
  simp only [List.map_cons, List.map_nil]
  exact (hperm.cons (some m)).trans
    (@List.perm_append_comm _ [some m] (List.map some (List.range m)))

/-- Reading an encoded task back through the accessors restores every
field, absent optional fields staying absent. -/
lemma decode_encode (t : Task) : decodeTask (encodeTask t) = some t := by
  rcases t with ⟨i, ti, se, cat, d, com, cr, or⟩
  rcases se <;> rcases cat with _ | c <;> rcases com with _ | cm <;> rcases or with _ | n <;> rfl

/-- Decoding an encoded collection restores it. -/
lemma mapM_decode (l : List Task) : (l.map encodeTask).mapM decodeTask = some l := by
  induction l with
  | nil => rfl
  | cons t ts ih =>
    rw [List.map_cons, List.mapM_cons, decode_encode, ih]
    rfl

/-- A map that fixes every member of a list leaves it unchanged. -/
lemma map_self_of_eq {l : List Task} {f : Task → Task} (h : ∀ t ∈ l, f t = t) :
    l.map f = l := by
  induction l with
  | nil => rfl
  | cons a l ih =>
    rw [List.map_cons, h a (List.mem_cons_self a l),
      ih (fun t ht => h t (List.mem_cons_of_mem a ht))]

/-- C1, counterexample: the claim says every task with a defined
`order` comes before every task without one, but on the snapshot
`[exA, exB]` with `exA.order = some 1000000` and `exB.order = none`,
`filtered` puts the order-less `exB` first: the comparator replaces a
missing `order` by the sentinel 999999, and 1000000 sorts after it. -/
theorem filtered_sentinel_cex :
    (filteredTasks [exA, exB] "All" false).map Task.order = [none, some 1000000] := by
  decide

/-- C1 (amended): `filtered` returns exactly the tasks satisfying
(category_filter = "All" OR task.category = category_filter) AND
(NOT only_incomplete OR NOT task.done), ordered ascending by the
effective order `order ?? 999999` — so tasks with a defined `order`
below the sentinel 999999 come before tasks without one — with ties by
`createdAt` descending. -/
theorem filtered_characterization (tasks : List Task) (cf : String) (oi : Bool) :
    (filteredTasks tasks cf oi).Perm
      (tasks.filter (fun t =>
        decide ((cf = "All" ∨ t.category = some cf) ∧ (oi = false ∨ t.done = false))))
    ∧ List.Pairwise
      (fun a b : Task => a.order.getD 999999 < b.order.getD 999999 ∨
        (a.order.getD 999999 = b.order.getD 999999 ∧ b.createdAt ≤ a.createdAt))
      (filteredTasks tasks cf oi) := by
  constructor
  · have h1 : (filteredTasks tasks cf oi).Perm
        ((tasks.filter (fun t => if cf = "All" then true else decide (t.category = some cf))).filter
          (fun t => if oi then !t.done else true)) :=
      List.perm_insertionSort viewLE _
    have h2 : ((tasks.filter (fun t => if cf = "All" then true else decide (t.category = some cf))).filter
        (fun t => if oi then !t.done else true)) =
        (tasks.filter (fun t =>
          decide ((cf = "All" ∨ t.category = some cf) ∧ (oi = false ∨ t.done = false)))) := by
      rw [List.filter_filter]
      apply List.filter_congr
      intro t _
      by_cases hcf : cf = "All" <;> cases hoi : oi <;> cases hdn : t.done <;> simp [hcf]
    rw [h2] at h1
    exact h1
  · exact List.sorted_insertionSort viewLE _

/-- C2, counterexample: on two order-less Morning tasks stored as
`[exP, exQ]` with `exP` older, dragging `exP` onto `exQ` makes the code
assign `exP` order 1 and `exQ` order 0, while the claimed procedure
(section sorted with `createdAt` descending as tie break) assigns
`exP` order 0 and `exQ` order 1: the code sorts the section by
`order ?? 999999` only, ties keeping stored-array positions. -/
theorem reorder_tie_cex :
    (reorder [exP, exQ] "a" "b").map (fun t => (t.id, t.order)) = [("a", some 1), ("b", some 0)]
    ∧ (reorderClaimC2 [exP, exQ] "a" "b").map (fun t => (t.id, t.order)) = [("a", some 0), ("b", some 1)]
    ∧ reorder [exP, exQ] "a" "b" ≠ reorderClaimC2 [exP, exQ] "a" "b" := by
  decide

/-- C2 (amended): for a snapshot with distinct ids, when both ids exist
in the same section and differ, the reorder produces the snapshot
obtained by sorting that section's tasks ascending by `order ?? 999999`
(stable: ties keep their stored-array relative position, `createdAt` is
not consulted), moving the dragged task to the target's position, and
assigning every task in the section the zero-based index of its id in
the resulting sequence; tasks outside the section are unchanged. -/
theorem reorder_effective_characterization
    (tasks : List Task) (aId oId : String) (a b : Task)
    (hnd : (tasks.map Task.id).Nodup)
    (ha : a ∈ tasks) (haid : a.id = aId)
    (hb : b ∈ tasks) (hbid : b.id = oId)
    (hne : aId ≠ oId) (hsec : a.sect = b.sect) :
    reorder tasks aId oId =
      tasks.map (fun t =>
        if t.sect = a.sect then
          { t with order := some ((movedList tasks a.sect aId oId).findIdx (fun u => decide (u.id = t.id))) }
        else t) :=
  reorder_eq_of_effective tasks aId oId a b hnd ha haid hb hbid hne hsec

/-- C2, witness: the characterization applied to the concrete
three-task Morning snapshot `[tC, tB, tA]`, dragging `tc` onto `ta`. -/
theorem reorder_effective_characterization_witness :
    reorder [tC, tB, tA] "tc" "ta" =
      [tC, tB, tA].map (fun t =>
        if t.sect = tC.sect then
          { t with order := some ((movedList [tC, tB, tA] tC.sect "tc" "ta").findIdx (fun u => decide (u.id = t.id))) }
        else t) :=
  reorder_effective_characterization [tC, tB, tA] "tc" "ta" tC tA
    (by decide) (by decide) rfl (by decide) rfl (by decide) rfl

/-- C3, counterexample: creating a task in a Morning section whose only
task has `order` 1 (reachable: create two tasks, delete the first)
assigns the new task `order` 2, so the section's orders are
`{2, 1}` and not `0..k-1`: create assigns max existing order plus one
without renumbering. -/
theorem create_order_gap_cex :
    ((submitCreate [exO] "New" .morning "" "" "n" 5).filter
      (fun t => decide (t.sect = Sec.morning))).map Task.order = [some 2, some 1]
    ∧ ¬ (((submitCreate [exO] "New" .morning "" "" "n" 5).filter
      (fun t => decide (t.sect = Sec.morning))).map Task.order).Perm
        ((List.range 2).map some) := by
  decide

/-- C3 (amended): immediately after an effective reorder call (distinct
ids, both present, same section, different ids) the `order` values of
that section are exactly the integers 0..k-1; a successful create
assigns the new task `order` = max existing order in the section plus
one (0 if none), which yields exactly 0..k-1 when the section's orders
were exactly 0..k-2 before the call. -/
theorem order_contiguity
    (tasks : List Task) (aId oId : String) (a b : Task) (s : Sec)
    (title cat com nid : String) (now : Nat) (m : Nat) :
    ((tasks.map Task.id).Nodup → a ∈ tasks → a.id = aId → b ∈ tasks → b.id = oId →
      aId ≠ oId → a.sect = b.sect →
      (((reorder tasks aId oId).filter (fun t => decide (t.sect = a.sect))).map Task.order).Perm
        ((List.range ((tasks.filter (fun t => decide (t.sect = a.sect))).length)).map some))
    ∧ (clampStr title ≠ "" →
      ((tasks.filter (fun t => decide (t.sect = s))).map Task.order).Perm
        ((List.range m).map some) →
      (((submitCreate tasks title s cat com nid now).filter
        (fun t => decide (t.sect = s))).map Task.order).Perm
        ((List.range (m + 1)).map some)) :=
  ⟨fun hnd ha haid hb hbid hne hsec =>
    reorder_orders_range tasks aId oId a b hnd ha haid hb hbid hne hsec,
   fun ht hperm => create_orders_range tasks title s cat com nid now m ht hperm⟩

/-- C3, witness: the reorder part on the three-task Morning snapshot
and the create part on a Morning section whose orders are exactly
`0..0`. -/
theorem order_contiguity_witness :
    (((reorder [tC, tB, tA] "tc" "ta").filter
      (fun t => decide (t.sect = tC.sect))).map Task.order).Perm
      ((List.range (([tC, tB, tA].filter (fun t => decide (t.sect = tC.sect))).length)).map some)
    ∧ (((submitCreate [exT] "New" Sec.morning "" "" "n" 5).filter
      (fun t => decide (t.sect = Sec.morning))).map Task.order).Perm
      ((List.range 2).map some) :=
  ⟨(order_contiguity [tC, tB, tA] "tc" "ta" tC tA Sec.morning "New" "" "" "n" 5 1).1
      (by decide) (by decide) rfl (by decide) rfl (by decide) rfl,
   (order_contiguity [exT] "x" "y" exT exT Sec.morning "New" "" "" "n" 5 1).2
      (by decide) (by decide)⟩

/-- C4 (confirmed): a reorder call whose moved or target id is absent,
or whose tasks lie in different sections, or whose two ids are equal,
returns the snapshot unchanged. -/
theorem reorder_noop_cases (tasks : List Task) (x y : String) :
    (x = y → reorder tasks x y = tasks)
    ∧ ((∀ t ∈ tasks, t.id ≠ x) → reorder tasks x y = tasks)
    ∧ ((∀ t ∈ tasks, t.id ≠ y) → reorder tasks x y = tasks)
    ∧ ((tasks.map Task.id).Nodup → ∀ a ∈ tasks, ∀ b ∈ tasks,
        a.id = x → b.id = y → a.sect ≠ b.sect → reorder tasks x y = tasks) := by
  refine ⟨?_, ?_, ?_, ?_⟩
  · intro h
    subst h
    unfold reorder
    rw [if_pos rfl]
  · intro h
    by_cases hxy : x = y
    · subst hxy; unfold reorder; rw [if_pos rfl]
    · have hfx : tasks.find? (fun t => decide (t.id = x)) = none :=
        List.find?_eq_none.mpr (fun t ht => by simp [h t ht])
      unfold reorder
      rw [if_neg hxy, hfx]
  · intro h
    by_cases hxy : x = y
    · subst hxy; unfold reorder; rw [if_pos rfl]
    · have hfy : tasks.find? (fun t => decide (t.id = y)) = none :=
        List.find?_eq_none.mpr (fun t ht => by simp [h t ht])
      unfold reorder
      rw [if_neg hxy, hfy]
      cases tasks.find? (fun t => decide (t.id = x)) <;> rfl
  · intro hnd a ha b hb hax hby hab
    by_cases hxy : x = y
    · subst hxy; unfold reorder; rw [if_pos rfl]
    · have hfx : tasks.find? (fun t => decide (t.id = x)) = some a :=
        find?_id_eq tasks hnd a ha x hax
      have hfy : tasks.find? (fun t => decide (t.id = y)) = some b :=
        find?_id_eq tasks hnd b hb y hby
      unfold reorder
      rw [if_neg hxy, hfx, hfy]
      dsimp only
      rw [if_pos hab]

/-- C4, witness: the four no-op cases on concrete snapshots: equal ids,
unknown moved id, unknown target id, and two tasks from different
sections. -/
theorem reorder_noop_cases_witness :
    reorder [exT] "z" "z" = [exT]
    ∧ reorder [exT] "ghost" "t1" = [exT]
    ∧ reorder [exT] "t1" "ghost" = [exT]
    ∧ reorder [exT, mdT] "t1" "md" = [exT, mdT] :=
  ⟨(reorder_noop_cases [exT] "z" "z").1 rfl,
   (reorder_noop_cases [exT] "ghost" "t1").2.1 (by decide),
   (reorder_noop_cases [exT] "t1" "ghost").2.2.1 (by decide),
   (reorder_noop_cases [exT, mdT] "t1" "md").2.2.2 (by decide) exT (by decide) mdT
     (by decide) rfl rfl (by decide)⟩

/-- C5 (confirmed): a create or update whose title normalizes to the
empty string fails with the validation error and installs a state
identical to the previous one. -/
theorem empty_title_validation (tasks : List Task) (title : String) (s : Sec)
    (cat com nid eid : String) (now : Nat) (h : clampStr title = "") :
    createE tasks title s cat com nid now = .error .validationError
    ∧ updateE tasks eid title s cat com = .error .validationError
    ∧ submitCreate tasks title s cat com nid now = tasks
    ∧ submitUpdate tasks eid title s cat com = tasks := by
  refine ⟨?_, ?_, ?_, ?_⟩
  · unfold createE; rw [if_pos h]
  · unfold updateE; rw [if_pos h]
  · unfold submitCreate createE; rw [if_pos h]
  · unfold submitUpdate updateE; rw [if_pos h]

/-- C5, witness: the whitespace-only title of the spec scenario. -/
theorem empty_title_validation_witness :
    createE [exT] "   " Sec.morning "c" "m" "n" 5 = .error .validationError
    ∧ updateE [exT] "t1" "   " Sec.morning "c" "m" = .error .validationError
    ∧ submitCreate [exT] "   " Sec.morning "c" "m" "n" 5 = [exT]
    ∧ submitUpdate [exT] "t1" "   " Sec.morning "c" "m" = [exT] :=
  empty_title_validation [exT] "   " Sec.morning "c" "m" "n" "t1" 5 (by decide)

/-- C6, counterexample: updating or toggling an id absent from the
snapshot does not fail with any error: the update completes returning
the snapshot unchanged and the toggle returns the snapshot unchanged —
a silent no-op, not a `NotFoundError`. -/
theorem unknown_id_silent_cex :
    updateE [exT] "ghost" "Hello" Sec.morning "" "" = .ok [exT]
    ∧ toggleDone "ghost" [exT] = [exT] := by
  constructor <;> rfl

/-- C6 (amended): an update with a valid title and an id absent from
the snapshot completes without error with the snapshot unchanged, and
`toggle_done` on an absent id returns the snapshot unchanged: both are
silent no-ops; no `NotFoundError` is raised. -/
theorem unknown_id_noop (tasks : List Task) (tid title : String) (s : Sec)
    (cat com : String) (ht : clampStr title ≠ "") (hid : ∀ t ∈ tasks, t.id ≠ tid) :
    updateE tasks tid title s cat com = .ok tasks
    ∧ toggleDone tid tasks = tasks := by
  constructor
  · unfold updateE
    rw [if_neg ht]
    congr 1
    exact map_self_of_eq (fun t htm => if_neg (hid t htm))
  · unfold toggleDone
    exact map_self_of_eq (fun t htm => if_neg (hid t htm))

/-- C6, witness: the amended no-op statement on a concrete snapshot and
the unknown id `ghost`. -/
theorem unknown_id_noop_witness :
    updateE [exT] "ghost" "Hello" Sec.morning "" "" = .ok [exT]
    ∧ toggleDone "ghost" [exT] = [exT] :=
  unknown_id_noop [exT] "ghost" "Hello" Sec.morning "" "" (by decide) (by decide)

/-- C7 (confirmed): toggling an id twice restores the snapshot exactly,
and a single toggle only flips the `done` flag of the tasks carrying
the id, leaving every other field and every other task unchanged. -/
theorem toggle_done_involution (tasks : List Task) (tid : String) :
    toggleDone tid (toggleDone tid tasks) = tasks
    ∧ toggleDone tid tasks = tasks.map (fun t =>
        { t with done := if t.id = tid then !t.done else t.done }) := by
  constructor
  · unfold toggleDone
    rw [List.map_map]
    apply map_self_of_eq
    intro t _
    rcases t with ⟨i, ti, se, ca, d, co, cr, oo⟩
    by_cases h : i = tid
    · simp [Function.comp, h]
    · simp [Function.comp, h]
  · unfold toggleDone
    apply List.map_congr_left
    intro t _
    by_cases h : t.id = tid
    · rw [if_pos h, if_pos h]
    · rw [if_neg h, if_neg h]

/-- C8 (confirmed): saving any snapshot through the persistence bridge
and loading it back restores it field for field, absent optional
fields staying absent. -/
theorem save_load_roundtrip (tasks : List Task) :
    loadTyped (saveBridge tasks) = some tasks :=
  mapM_decode tasks

/-- C9 (confirmed): per-section statistics and global progress use
`pct = (total = 0 ? 0 : round(100 * done / total))` over the filtered
list only; `pct 0 0 = 0`, `pct 3 4 = 75`, `pct 1 3 = 33`; and on a
concrete snapshot the Work filter changes the Morning percentage from
50 to 100, showing stats follow the filter, not the raw store. -/
theorem stats_pct_characterization :
    (∀ (tasks : List Task) (cf : String) (oi : Bool) (s : Sec),
      sectionStats tasks cf oi s =
        ((((filteredTasks tasks cf oi).filter (fun t => decide (t.sect = s))).filter
            (fun t => t.done)).length,
          ((filteredTasks tasks cf oi).filter (fun t => decide (t.sect = s))).length,
          pct (((filteredTasks tasks cf oi).filter (fun t => decide (t.sect = s))).filter
            (fun t => t.done)).length
            ((filteredTasks tasks cf oi).filter (fun t => decide (t.sect = s))).length))
    ∧ (∀ (tasks : List Task) (cf : String) (oi : Bool),
      globalProgress tasks cf oi =
        pct ((filteredTasks tasks cf oi).filter (fun t => t.done)).length
          (filteredTasks tasks cf oi).length)
    ∧ pct 0 0 = 0 ∧ pct 3 4 = 75 ∧ pct 1 3 = 33
    ∧ sectionStats [wTask, hTask] "Work" false .morning = (1, 1, 100)
    ∧ sectionStats [wTask, hTask] "All" false .morning = (1, 2, 50) := by
  refine ⟨fun tasks cf oi s => rfl, fun tasks cf oi => rfl, ?_, ?_, ?_, ?_, ?_⟩ <;> decide

/-- C10 (confirmed): the loader installs any payload that is an array
verbatim, with no per-record validation; the concrete payload
`badPayload` loads successfully and contains a record whose title is
the empty string and whose section name `Banana` is none of the three
sections. -/
theorem loader_no_validation :
    (∀ l : List Json, loadRaw (Json.arr l) = some l)
    ∧ loadRaw badPayload = some [badRecord]
    ∧ jsonField badRecord "title" = some (Json.str "")
    ∧ jsonField badRecord "section" = some (Json.str "Banana")
    ∧ secOfName "Banana" = none :=
  ⟨fun _ => rfl, rfl, rfl, rfl, rfl⟩

end JourneyBoard
